import Mathlib

/-
Shallow embedding of the GSC coin node (repository Dpkaction/vags-gsc),
covering `src/blockchain.py` (classes Transaction, Block, GSCBlockchain)
and `src/wallet_manager.py` (class WalletManager).

Modelling conventions:
  * Python `float` amounts and timestamps are modelled as `Rat`.  Every
    constant the program manipulates in the verified scenarios
    (21750000000000, 50.0, 1.0, 30.0, 25.0, 50.0 / 2 ** k for k < 64) is
    exactly representable as an IEEE-754 binary64 value and the sums and
    differences taken stay far below 2 ^ 53, so rational arithmetic agrees
    with the float arithmetic the program performs there.
  * SHA-256 is abstracted by a `HashModel` record of uninterpreted hash
    functions; the Python code only ever concatenates fields into an
    f-string and hashes it, so each call site becomes one field of the
    record applied to the same tuple of fields.  No verified statement
    depends on a property of SHA-256 beyond it being a function.
  * Python dictionaries keyed by address are modelled as insertion-ordered
    association lists (`Dict`), with `dictGet` giving the `.get(k, 0.0)`
    read and `dictSet` the `d[k] = v` write.
  * A Python `while` loop without a bound (the proof-of-work search) is
    modelled with explicit fuel and an `Option` result.
-/

/-- Association-list model of the Python `dict` from address to balance. -/
abbrev Dict : Type := List (String × Rat)

/-- Model of Python `balances.get(k, 0.0)`. -/
def dictGet (m : Dict) (k : String) : Rat :=
  match m with
  | [] => 0
  | (k₀, v₀) :: rest => if k = k₀ then v₀ else dictGet rest k

/-- Model of Python `balances[k] = v`: update the existing entry in place,
otherwise append a fresh entry (insertion order of a Python dict). -/
def dictSet (m : Dict) (k : String) (v : Rat) : Dict :=
  match m with
  | [] => [(k, v)]
  | (k₀, v₀) :: rest => if k = k₀ then (k, v) :: rest else (k₀, v₀) :: dictSet rest k v

/-- Model of `blockchain.py` class `Transaction` (post `__post_init__`):
the `tx_id` field stores whatever hash was computed or loaded. -/
structure Transaction where
  sender : String
  receiver : String
  amount : Rat
  fee : Rat
  timestamp : Rat
  signature : String
  tx_id : String
  deriving DecidableEq

/-- The uninterpreted hash primitives used by `blockchain.py`.  `blockHash`
stands for sha256 over the f-string of the six block header fields,
`txHash` for sha256 over the five transaction fields, `pairHash` for
sha256 over the concatenation of two transaction ids inside the Merkle
loop, and `emptyHash` for sha256 of the empty byte string. -/
structure HashModel where
  blockHash : Nat → Rat → String → String → Nat → Nat → String
  txHash : String → String → Rat → Rat → Rat → String
  pairHash : String → String → String
  emptyHash : String

/-- Model of `Transaction.calculate_hash` composed with the dataclass
constructor: `__post_init__` fills `tx_id` when it was not supplied. -/
def mkTransaction (hm : HashModel) (sender receiver : String)
    (amount fee timestamp : Rat) : Transaction :=
  { sender := sender, receiver := receiver, amount := amount, fee := fee,
    timestamp := timestamp, signature := "",
    tx_id := hm.txHash sender receiver amount fee timestamp }

/-- Model of `Transaction.is_valid`. -/
def Transaction.is_valid (t : Transaction) : Bool :=
  if t.amount ≤ 0 then false
  else if t.fee < 0 then false
  else if t.sender = t.receiver then false
  else true

/-- Model of `blockchain.py` class `Block` (post `__post_init__`):
`merkle_root` and `hash` store whatever was computed or loaded. -/
structure Block where
  index : Nat
  timestamp : Rat
  transactions : List Transaction
  previous_hash : String
  nonce : Nat
  hash : String
  merkle_root : String
  difficulty : Nat
  miner : String
  reward : Rat
  deriving DecidableEq

/-- One pass of the Merkle loop body: Python appends the last id when the
level has odd length and then hashes consecutive pairs. -/
def merklePass (hm : HashModel) : List String → List String
  | [] => []
  | [a] => [hm.pairHash a a]
  | a :: b :: rest => hm.pairHash a b :: merklePass hm rest

/-- The `while len(tx_hashes) > 1` loop of `Block.calculate_merkle_root`,
run with explicit fuel; each pass at least halves the length, so fuel equal
to the starting length always suffices to reach a singleton. -/
def merkleIter (hm : HashModel) (fuel : Nat) (hs : List String) : List String :=
  match fuel with
  | 0 => hs
  | f + 1 => if hs.length ≤ 1 then hs else merkleIter hm f (merklePass hm hs)

/-- Model of `Block.calculate_merkle_root` applied to a transaction list. -/
def merkleRootOfTxs (hm : HashModel) (txs : List Transaction) : String :=
  match txs with
  | [] => hm.emptyHash
  | _ => (merkleIter hm txs.length (txs.map Transaction.tx_id)).headD hm.emptyHash

/-- Model of `Block.calculate_hash`. -/
def Block.calculate_hash (hm : HashModel) (b : Block) : String :=
  hm.blockHash b.index b.timestamp b.previous_hash b.merkle_root b.nonce b.difficulty

/-- Model of `Block.calculate_merkle_root` as a method. -/
def Block.calculate_merkle_root (hm : HashModel) (b : Block) : String :=
  merkleRootOfTxs hm b.transactions

/-- Model of the dataclass constructor `Block(...)` when `hash` and
`merkle_root` are left at their `""` defaults, so `__post_init__`
computes both. -/
def mkBlock (hm : HashModel) (index : Nat) (timestamp : Rat)
    (transactions : List Transaction) (previous_hash : String) (nonce : Nat)
    (difficulty : Nat) (miner : String) (reward : Rat) : Block :=
  let mr := merkleRootOfTxs hm transactions
  { index := index, timestamp := timestamp, transactions := transactions,
    previous_hash := previous_hash, nonce := nonce,
    hash := hm.blockHash index timestamp previous_hash mr nonce difficulty,
    merkle_root := mr, difficulty := difficulty, miner := miner,
    reward := reward }

/-- Model of Python `s.startswith("0" * d)`. -/
def startsWithZeros (s : String) (d : Nat) : Bool :=
  List.isPrefixOf (List.replicate d '0') s.data

/-- Model of `Block.is_valid(previous_block)`; `none` models the default
`previous_block=None`. -/
def Block.is_valid (hm : HashModel) (b : Block) (previous : Option Block) : Bool :=
  if b.hash ≠ b.calculate_hash hm then false
  else if (match previous with
           | some p => b.previous_hash != p.hash
           | none => false) then false
  else if b.merkle_root ≠ b.calculate_merkle_root hm then false
  else if ¬ startsWithZeros b.hash b.difficulty = true then false
  else b.transactions.all Transaction.is_valid

/-- The `while not self.hash.startswith(target)` loop of `Block.mine_block`:
note the loop tests the current (possibly stale) `hash` before the first
nonce increment, exactly as the Python code does. -/
def mineLoop (hm : HashModel) (fuel : Nat) (b : Block) (target : Nat) : Option Block :=
  match fuel with
  | 0 => none
  | f + 1 =>
      if startsWithZeros b.hash target then some b
      else
        let b₁ := { b with nonce := b.nonce + 1 }
        mineLoop hm f { b₁ with hash := b₁.calculate_hash hm } target

/-- Model of `Block.mine_block(difficulty, miner_address)`: sets difficulty
and miner, prepends the coinbase transaction paying `self.reward` to the
miner with timestamp `now` (the `time.time()` read), recomputes the Merkle
root, and runs the proof-of-work loop. -/
def Block.mine_block (hm : HashModel) (fuel : Nat) (b : Block)
    (difficulty : Nat) (miner_address : String) (now : Rat) : Option Block :=
  let b₁ := { b with difficulty := difficulty, miner := miner_address }
  let coinbase := mkTransaction hm "COINBASE" miner_address b.reward 0 now
  let b₂ := { b₁ with transactions := coinbase :: b₁.transactions }
  let b₃ := { b₂ with merkle_root := merkleRootOfTxs hm b₂.transactions }
  mineLoop hm fuel b₃ difficulty

/-- The mutable attributes of `GSCBlockchain` that the verified operations
read or write.  `difficulty` is initialised to 4 and `block_height` to 0 by
`__init__`. -/
structure ChainState where
  chain : List Block
  mempool : List Transaction
  balances : Dict
  difficulty : Nat
  block_height : Nat
  mining_reward : Rat

/-- Model of `GSCBlockchain.get_current_reward`: `initial_reward` is 50.0
and `halving_interval` is 210000; the division `50.0 / 2 ** halvings` is
exact in binary64 for every `halvings < 64`, so `Rat` division models it
exactly. -/
def get_current_reward (block_height : Nat) : Rat :=
  let halvings := block_height / 210000
  if 64 ≤ halvings then 0 else (50 : Rat) / 2 ^ halvings

/-- The 64-zero previous hash of the genesis block. -/
def zeros64 : String :=
  "0000000000000000000000000000000000000000000000000000000000000000"

/-- Model of `GSCBlockchain.create_genesis_block`: builds the block holding
the single Genesis transfer of `max_supply = 21750000000000`, then calls
`mine_block(1, "GSC_FOUNDATION")`, which inserts a coinbase transaction
timestamped with the wall clock (`now`). -/
def create_genesis_block (hm : HashModel) (fuel : Nat) (now : Rat) : Option Block :=
  let gtx := mkTransaction hm "Genesis" "GSC_FOUNDATION_RESERVE" 21750000000000 0 1704067200
  let gb := mkBlock hm 0 1704067200 [gtx] zeros64 0 4 "" 50
  gb.mine_block hm fuel 1 "GSC_FOUNDATION" now

/-- The per-transaction body of `GSCBlockchain.update_balances`: debit the
sender unless it is `"COINBASE"` or the all-caps string `"GENESIS"`, credit
the receiver, and credit the (truthy) miner with the fee unless the sender
is `"COINBASE"`. -/
def applyTxBal (miner : String) (m : Dict) (tx : Transaction) : Dict :=
  let m₁ := if tx.sender ≠ "COINBASE" ∧ tx.sender ≠ "GENESIS" then
              dictSet m tx.sender (dictGet m tx.sender - (tx.amount + tx.fee))
            else m
  let m₂ := dictSet m₁ tx.receiver (dictGet m₁ tx.receiver + tx.amount)
  if tx.sender ≠ "COINBASE" ∧ miner ≠ "" then
    dictSet m₂ miner (dictGet m₂ miner + tx.fee)
  else m₂

/-- The net contribution of one transaction to the balance of `address`
under the `update_balances` rules, used to state `applyTxBal` pointwise. -/
def txBalEffect (miner : String) (tx : Transaction) (address : String) : Rat :=
  (if (tx.sender ≠ "COINBASE" ∧ tx.sender ≠ "GENESIS") ∧ address = tx.sender then
     -(tx.amount + tx.fee) else 0)
  + (if address = tx.receiver then tx.amount else 0)
  + (if (tx.sender ≠ "COINBASE" ∧ miner ≠ "") ∧ address = miner then
       tx.fee else 0)

/-- Model of `GSCBlockchain.update_balances`: clear the dictionary and
replay every transaction of every block. -/
def update_balances (chain : List Block) : Dict :=
  chain.foldl (fun m b => b.transactions.foldl (applyTxBal b.miner) m) []

/-- Model of `GSCBlockchain.get_balance`. -/
def get_balance (balances : Dict) (address : String) : Rat :=
  dictGet balances address

/-- The three conditional contributions of one transaction inside
`GSCBlockchain.get_balance_at_block`; note this path excludes the
mixed-case sender `"Genesis"`, unlike `update_balances`. -/
def txReplayEffect (address : String) (miner : String) (tx : Transaction) : Rat :=
  (if tx.sender = address ∧ tx.sender ≠ "COINBASE" ∧ tx.sender ≠ "Genesis" then
     -(tx.amount + tx.fee) else 0)
  + (if tx.receiver = address then tx.amount else 0)
  + (if miner = address ∧ tx.sender ≠ "COINBASE" ∧ tx.sender ≠ "Genesis" then
       tx.fee else 0)

/-- Model of `GSCBlockchain.get_balance_at_block`: replay the blocks with
index `i < min(block_index + 1, len(chain))`. -/
def get_balance_at_block (chain : List Block) (address : String)
    (block_index : Int) : Rat :=
  let n := (min (block_index + 1) (chain.length : Int)).toNat
  (chain.take n).foldl
    (fun bal b => b.transactions.foldl
      (fun bal₂ tx => bal₂ + txReplayEffect address b.miner tx) bal) 0

/-- The balance-replay rule exactly as §3/§8 of the specification word it:
credit the receiver by `amount`; debit the sender by `amount + fee` unless
the sender is `COINBASE` or `Genesis`; credit the miner of the block by
`fee` for every non-coinbase transaction.  Written from the specification
text, to be compared with the code-derived functions. -/
def specTxEffect (address : String) (miner : String) (tx : Transaction) : Rat :=
  (if tx.receiver = address then tx.amount else 0)
  + (if tx.sender = address ∧ tx.sender ≠ "COINBASE" ∧ tx.sender ≠ "Genesis" then
       -(tx.amount + tx.fee) else 0)
  + (if miner = address ∧ tx.sender ≠ "COINBASE" then tx.fee else 0)

/-- Replay of the whole chain under the specification rule. -/
def specReplay (chain : List Block) (address : String) : Rat :=
  (chain.map (fun b => (b.transactions.map (specTxEffect address b.miner)).sum)).sum

/-- The sum of `amount + fee` over the mempool transactions of one sender,
as computed inside `GSCBlockchain.is_transaction_valid`. -/
def pendingSum (mempool : List Transaction) (sender : String) : Rat :=
  ((mempool.filter (fun tx => tx.sender = sender)).map
    (fun tx => tx.amount + tx.fee)).sum

/-- Model of `GSCBlockchain.is_transaction_valid`.  The Python loop runs the
same balance comparison for every pending transaction that shares the
sender but not the id, so it rejects exactly when such a transaction exists
and the total pending spending (including the candidate) exceeds the
stored balance. -/
def is_transaction_valid (balances : Dict) (mempool : List Transaction)
    (t : Transaction) : Bool :=
  if ¬ t.is_valid = true then false
  else if mempool.any (fun tx => tx.sender = t.sender ∧ tx.tx_id ≠ t.tx_id) then
    if dictGet balances t.sender < pendingSum mempool t.sender + (t.amount + t.fee)
    then false else true
  else true

/-- Model of `GSCBlockchain.add_transaction_to_mempool`: returns the Python
result together with the mempool after the call (the broadcast hook is a
network side effect outside this model). -/
def add_transaction_to_mempool (balances : Dict) (mempool : List Transaction)
    (t : Transaction) : Bool × List Transaction :=
  if ¬ is_transaction_valid balances mempool t = true then (false, mempool)
  else if t.amount + t.fee ≤ dictGet balances t.sender then
    if ¬ mempool.any (fun tx => tx.tx_id = t.tx_id) then (true, mempool ++ [t])
    else (false, mempool)
  else (false, mempool)

/-- Model of `GSCBlockchain.add_block`: validate against `self.chain[-1]`
with `Block.is_valid` only, append on success and rebuild the balance
dictionary.  Python raises `IndexError` on an empty chain; the `none`
branch of `getLast?` is unreachable in every verified statement, which all
assume a nonempty chain. -/
def add_block (hm : HashModel) (st : ChainState) (b : Block) : Bool × ChainState :=
  match st.chain.getLast? with
  | none => (false, st)
  | some previous =>
      if b.is_valid hm (some previous) then
        (true, { st with chain := st.chain ++ [b],
                         balances := update_balances (st.chain ++ [b]) })
      else (false, st)

/-- Model of `GSCBlockchain.is_chain_valid_network`: genesis shape plus
`Block.is_valid` of each block against its predecessor. -/
def chainLinksValid (hm : HashModel) : Block → List Block → Bool
  | _, [] => true
  | prev, b :: rest => b.is_valid hm (some prev) && chainLinksValid hm b rest

/-- Model of `GSCBlockchain.is_chain_valid_network`. -/
def is_chain_valid_network (hm : HashModel) (chain : List Block) : Bool :=
  match chain with
  | [] => false
  | g :: rest =>
      if g.index ≠ 0 ∨ g.previous_hash ≠ zeros64 then false
      else chainLinksValid hm g rest

/-- Model of `GSCBlockchain.replace_chain_if_longer`: on success the chain
is swapped and `update_balances` is run; the mempool is not touched. -/
def replace_chain_if_longer (hm : HashModel) (st : ChainState)
    (new_chain : List Block) : Bool × ChainState :=
  if st.chain.length < new_chain.length ∧ is_chain_valid_network hm new_chain then
    (true, { st with chain := new_chain, balances := update_balances new_chain })
  else (false, st)

/-- Model of `GSCBlockchain.check_double_spending`: look for a transaction
with the same sender, receiver, amount and timestamp in a strictly earlier
block (guarding `i < len(chain)`). -/
def check_double_spending (chain : List Block) (t : Transaction)
    (current_block_index : Nat) : Bool :=
  (chain.take current_block_index).any fun b =>
    b.transactions.any fun tx =>
      tx.sender = t.sender ∧ tx.receiver = t.receiver ∧
      tx.amount = t.amount ∧ tx.timestamp = t.timestamp

/-- Model of `GSCBlockchain.validate_transaction_bitcoin_style`. -/
def validate_transaction_bitcoin_style (hm : HashModel) (chain : List Block)
    (tx : Transaction) (b : Block) : Bool :=
  if tx.sender = "COINBASE" then true
  else if tx.tx_id ≠ hm.txHash tx.sender tx.receiver tx.amount tx.fee tx.timestamp
  then false
  else if ¬ tx.is_valid = true then false
  else if get_balance_at_block chain tx.sender ((b.index : Int) - 1)
            < tx.amount + tx.fee then false
  else if check_double_spending chain tx b.index then false
  else true

/-- Model of `GSCBlockchain.validate_block_bitcoin_style`; the proof of
work is checked against the node attribute `self.difficulty` and the
coinbase amount against `self.get_current_reward()`, which reads the node
attribute `self.block_height` (not the height of the block being
checked). -/
def validate_block_bitcoin_style (hm : HashModel) (chain : List Block)
    (node_difficulty : Nat) (node_block_height : Nat)
    (b : Block) (previous : Block) : Bool :=
  if b.index ≠ previous.index + 1 then false
  else if b.previous_hash ≠ previous.hash then false
  else if b.hash ≠ b.calculate_hash hm then false
  else if ¬ startsWithZeros b.hash node_difficulty = true then false
  else if b.merkle_root ≠ b.calculate_merkle_root hm then false
  else if ¬ b.transactions.all (fun tx =>
             validate_transaction_bitcoin_style hm chain tx b) = true then false
  else if (match b.transactions.head? with
           | some coinbase =>
               coinbase.sender != "COINBASE" ||
               coinbase.amount != get_current_reward node_block_height
           | none => false) then false
  else if b.timestamp ≤ previous.timestamp then false
  else true

/-- The `for i in range(1, len(chain))` loop of
`GSCBlockchain.is_chain_valid`. -/
def bitcoinBlocksValid (hm : HashModel) (chain : List Block)
    (node_difficulty : Nat) (node_block_height : Nat) :
    Block → List Block → Bool
  | _, [] => true
  | prev, b :: rest =>
      validate_block_bitcoin_style hm chain node_difficulty node_block_height
        b prev
      && bitcoinBlocksValid hm chain node_difficulty node_block_height b rest

/-- The recomputation inside `GSCBlockchain.validate_balances`, which uses
the mixed-case sentinel `"Genesis"` (unlike `update_balances`): coinbase
and Genesis transactions only credit the receiver; regular ones debit the
sender, credit the receiver and pay the fee to a truthy miner. -/
def applyTxVb (miner : String) (m : Dict) (tx : Transaction) : Dict :=
  if tx.sender = "COINBASE" then
    dictSet m tx.receiver (dictGet m tx.receiver + tx.amount)
  else if tx.sender = "Genesis" then
    dictSet m tx.receiver (dictGet m tx.receiver + tx.amount)
  else
    let m₁ := dictSet m tx.sender (dictGet m tx.sender - (tx.amount + tx.fee))
    let m₂ := dictSet m₁ tx.receiver (dictGet m₁ tx.receiver + tx.amount)
    if miner ≠ "" then dictSet m₂ miner (dictGet m₂ miner + tx.fee) else m₂

/-- The `calculated_balances` dictionary of
`GSCBlockchain.validate_balances`. -/
def calculatedBalancesVb (chain : List Block) : Dict :=
  chain.foldl (fun m b => b.transactions.foldl (applyTxVb b.miner) m) []

/-- Model of `GSCBlockchain.validate_balances`: recompute the dictionary,
patch entries of `self.balances` whose stored value drifts by more than
`1e-8` from the recomputation, then overwrite `self.balances` with a copy
of the recomputation, and return `True` unconditionally. -/
def validate_balances (chain : List Block) (balances : Dict) : Bool × Dict :=
  let calculated := calculatedBalancesVb chain
  let _patched := calculated.foldl
    (fun m kv => if (1 : Rat) / 100000000 < |dictGet m kv.1 - kv.2| then
                   dictSet m kv.1 kv.2 else m)
    balances
  (true, calculated)

/-- Model of `GSCBlockchain.is_chain_valid`: genesis shape, the
Bitcoin-style loop over consecutive blocks, then `validate_balances`
(whose overwrite of `self.balances` is the second component). -/
def is_chain_valid (hm : HashModel) (st : ChainState) : Bool × Dict :=
  match st.chain with
  | [] => (false, st.balances)
  | g :: rest =>
      if g.index ≠ 0 ∨ g.previous_hash ≠ zeros64 then (false, st.balances)
      else if ¬ bitcoinBlocksValid hm st.chain st.difficulty st.block_height
                  g rest = true then (false, st.balances)
      else validate_balances st.chain st.balances

/-- The persisted chain file contents, as rebuilt by
`GSCBlockchain.load_blockchain` on a successful parse. -/
structure LoadData where
  chain : List Block
  mempool : List Transaction
  balances : Dict
  difficulty : Nat
  mining_reward : Rat

/-- Model of `GSCBlockchain.load_blockchain`: a successfully parsed file
(`some data`) is installed verbatim with no validation of any kind; a
missing or unparseable file (`none`, the two `except` arms) falls back to
`create_genesis_block`, which appends the freshly mined genesis block `g`
to the chain and rebuilds the balance dictionary. -/
def load_blockchain (st : ChainState) (parsed : Option LoadData)
    (g : Block) : ChainState :=
  match parsed with
  | some data =>
      { st with chain := data.chain, mempool := data.mempool,
                balances := data.balances, difficulty := data.difficulty,
                mining_reward := data.mining_reward }
  | none =>
      { st with chain := st.chain ++ [g],
                balances := update_balances (st.chain ++ [g]) }

/-- One lowercase hex digit, as Python `bytes.hex` writes it. -/
def hexDigit (n : Nat) : Char :=
  if n < 10 then Char.ofNat (48 + n) else Char.ofNat (87 + n)

/-- The two hex digits of one byte. -/
def byteHex (b : Nat) : List Char :=
  [hexDigit (b / 16 % 16), hexDigit (b % 16)]

/-- Model of Python `bytes.hex()` over a byte list. -/
def bytesHex (bs : List Nat) : String :=
  String.mk (bs.foldr (fun b acc => byteHex b ++ acc) [])

/-- Model of Python string slicing `s[:n]`. -/
def strTake (s : String) (n : Nat) : String :=
  String.mk (s.data.take n)

/-- The SHA-256 digest over bytes used by `wallet_manager.py`, kept
uninterpreted. -/
structure WalletHash where
  sha : List Nat → List Nat

/-- Model of `WalletManager.generate_address`; `privBytes` stands for the
32 random bytes of `os.urandom(32)`.  The byte-string constants are
`b"GSC_PUBLIC"`, `b"GSC"` and `b"GSC_PUBKEY"`.  Note the return value is a
triple (address, private key, public key). -/
def generate_address (wh : WalletHash) (privBytes : List Nat) :
    String × String × String :=
  let private_key := bytesHex privBytes
  let public_key_hash := wh.sha (privBytes ++ [71, 83, 67, 95, 80, 85, 66, 76, 73, 67])
  let address_bytes := public_key_hash.take 20
  let checksum := (wh.sha (wh.sha ([71, 83, 67] ++ address_bytes))).take 4
  let full_address := address_bytes ++ checksum
  let address_hex := bytesHex full_address
  let address := "GSC1" ++ strTake address_hex 32
  let public_key := bytesHex (wh.sha (privBytes ++ [71, 83, 67, 95, 80, 85, 66, 75, 69, 89]))
  (address, private_key, public_key)

/-- Python semantics of the statement `a, b = t` when `t` is a 3-tuple:
unpacking a 3-tuple into 2 targets raises
`ValueError: too many values to unpack (expected 2)`, whatever the
values are. -/
def unpack2of3 {α β γ : Type} (_t : α × β × γ) : Except String (α × β) :=
  Except.error "ValueError: too many values to unpack (expected 2)"

/-- One entry of the wallet `addresses` list.  The entries written by
`create_wallet` also carry a `public_key` key and the ones
`generate_new_address` would write do not, hence the `Option`. -/
structure AddressEntry where
  address : String
  private_key : String
  public_key : Option String
  label : String
  balance : Rat
  created : String
  deriving DecidableEq

/-- The wallet record persisted by `wallet_manager.py` (`salt` is present
only after encryption). -/
structure WalletData where
  name : String
  created : String
  version : String
  master_address : String
  master_private_key : String
  master_public_key : String
  balance : Rat
  addresses : List AddressEntry
  sending_addresses : List (String × String)
  encrypted : Bool
  salt : Option String
  deriving DecidableEq

/-- The `WalletManager` attributes the verified operations touch. -/
structure WalletManagerState where
  current_wallet : Option String
  wallet_data : WalletData

/-- Model of `WalletManager.generate_new_address(label)`: after the
open-wallet guard the code runs
`address, private_key = self.generate_address()`, a 2-target unpacking of
the 3-tuple returned by `generate_address`; the `.ok` continuation mirrors
the append of the new entry and the returned address. -/
def generate_new_address (wh : WalletHash) (st : WalletManagerState)
    (privBytes : List Nat) (nowIso label : String) :
    Except String (String × WalletManagerState) :=
  match st.current_wallet with
  | none => Except.error "No wallet is currently open"
  | some _ =>
      match unpack2of3 (generate_address wh privBytes) with
      | Except.error e => Except.error e
      | Except.ok (address, private_key) =>
          let label' := if label = "" then
              "Address " ++ toString (st.wallet_data.addresses.length + 1)
            else label
          let entry : AddressEntry :=
            { address := address, private_key := private_key,
              public_key := none, label := label', balance := 0,
              created := nowIso }
          Except.ok (address,
            { st with wallet_data :=
                { st.wallet_data with
                    addresses := st.wallet_data.addresses ++ [entry] } })

/-- Model of `WalletManager.create_paper_wallet(output_path)`: after the
open-wallet guard the code runs the same 2-target unpacking of the
3-tuple; the `.ok` continuation returns the (address, private key) pair
the rendered paper wallet would carry. -/
def create_paper_wallet (wh : WalletHash) (st : WalletManagerState)
    (privBytes : List Nat) (_output_path : String) :
    Except String (String × String) :=
  match st.current_wallet with
  | none => Except.error "No wallet is currently open"
  | some _ =>
      match unpack2of3 (generate_address wh privBytes) with
      | Except.error e => Except.error e
      | Except.ok (address, private_key) => Except.ok (address, private_key)

/-- The PBKDF2 iteration count `wallet_manager.py` passes to
`PBKDF2HMAC(algorithm=SHA256, length=32, iterations=100000)` in both
`encrypt_wallet_data` and `decrypt_wallet_data`. -/
def pbkdf2Iterations : Nat := 100000

/-- Model of `WalletManager.encrypt_wallet_data(data, passphrase)`.  The
Fernet cipher and the PBKDF2 key derivation are abstracted: `kdf p s`
stands for the urlsafe-base64 key derived from passphrase `p` and the
fresh 16-byte salt `s` (`os.urandom(16)`, passed in as a parameter), and
`enc k m` for `Fernet(k).encrypt(m)`.  Every per-address private key and
the master private key are replaced by ciphertext, the salt is stored
alongside and the `encrypted` flag is set. -/
def encrypt_wallet_data (enc : String → String → String)
    (kdf : String → String → String) (data : WalletData)
    (passphrase salt : String) : WalletData :=
  let key := kdf passphrase salt
  { data with
      addresses := data.addresses.map
        (fun a => { a with private_key := enc key a.private_key }),
      master_private_key := enc key data.master_private_key,
      salt := some salt,
      encrypted := true }

/-- The decryption loop over the wallet `addresses` list: the first
`InvalidToken` aborts the whole call, as the Python exception would. -/
def decryptEntries (dec : String → String → Except Unit String) (key : String) :
    List AddressEntry → Except Unit (List AddressEntry)
  | [] => Except.ok []
  | a :: rest =>
      match dec key a.private_key with
      | Except.error e => Except.error e
      | Except.ok s =>
          match decryptEntries dec key rest with
          | Except.error e => Except.error e
          | Except.ok r => Except.ok ({ a with private_key := s } :: r)

/-- Model of `WalletManager.decrypt_wallet_data(data, passphrase)`:
`dec k c` stands for `Fernet(k).decrypt(c)`, which raises `InvalidToken`
(the `.error` case) when `k` is not the key `c` was produced under; the
key is rederived from the salt stored on the record (a missing salt is
the `KeyError` case). -/
def decrypt_wallet_data (dec : String → String → Except Unit String)
    (kdf : String → String → String) (data : WalletData)
    (passphrase : String) : Except Unit WalletData :=
  match data.salt with
  | none => Except.error ()
  | some salt =>
      let key := kdf passphrase salt
      match decryptEntries dec key data.addresses with
      | Except.error e => Except.error e
      | Except.ok addrs =>
          match dec key data.master_private_key with
          | Except.error e => Except.error e
          | Except.ok mpk =>
              Except.ok { data with addresses := addrs,
                                    master_private_key := mpk,
                                    encrypted := false }

/-- The private-key bearing fields of a wallet record, master first. -/
def privateFields (w : WalletData) : List String :=
  w.master_private_key :: w.addresses.map AddressEntry.private_key

/-- A concrete hash model used to evaluate the statements below on closed
inputs; the properties settled never depend on hash values beyond their
being functions, and this model makes every proof-of-work search succeed
immediately. -/
def hmTest : HashModel :=
  { blockHash := fun _ _ _ _ _ _ => "0",
    txHash := fun _ _ _ _ _ => "t",
    pairHash := fun _ _ => "m",
    emptyHash := "e" }

/-- The coinbase transaction `mine_block` inserts into the genesis block
under `hmTest` when the clock reads 0. -/
def cbTest : Transaction :=
  { sender := "COINBASE", receiver := "GSC_FOUNDATION", amount := 50, fee := 0,
    timestamp := 0, signature := "", tx_id := "t" }

/-- The Genesis transfer of the entire supply, under `hmTest`. -/
def gtxTest : Transaction :=
  { sender := "Genesis", receiver := "GSC_FOUNDATION_RESERVE",
    amount := 21750000000000, fee := 0, timestamp := 1704067200,
    signature := "", tx_id := "t" }

/-- The genesis block `create_genesis_block` produces under `hmTest` with
the clock at 0. -/
def gTest : Block :=
  { index := 0, timestamp := 1704067200, transactions := [cbTest, gtxTest],
    previous_hash := zeros64, nonce := 0, hash := "0", merkle_root := "m",
    difficulty := 1, miner := "GSC_FOUNDATION", reward := 50 }

/-- The node state right after construction, under `hmTest`. -/
def stTest : ChainState :=
  { chain := [gTest], mempool := [], balances := update_balances [gTest],
    difficulty := 4, block_height := 0, mining_reward := 50 }

/-- A block that is intrinsically acceptable to `Block.is_valid` (its
stored hash and Merkle root match the recomputation and its own
`difficulty` field is 0, so the proof-of-work test is vacuous) while
violating every contextual rule of the claim: wrong height, timestamp not
above the tip, and no coinbase transaction at all. -/
def bBad : Block := mkBlock hmTest 99 0 [] gTest.hash 0 0 "" 50

/-- A difficulty-0 genesis-shaped block used to build a competing chain. -/
def g0Test : Block := mkBlock hmTest 0 10 [] zeros64 0 0 "" 50

/-- A difficulty-0 successor of `g0Test`. -/
def b1Test : Block := mkBlock hmTest 1 11 [] g0Test.hash 0 0 "" 50

/-- A pending transaction whose sender owns nothing on the competing
chain. -/
def tPending : Transaction :=
  { sender := "M", receiver := "R", amount := 10, fee := 1, timestamp := 5,
    signature := "", tx_id := "tid" }

/-- The node state with `tPending` in the mempool, before the chain
replacement of the C5 scenario. -/
def stRep : ChainState :=
  { chain := [gTest], mempool := [tPending],
    balances := update_balances [gTest], difficulty := 4, block_height := 0,
    mining_reward := 50 }

/-- A block whose stored `hash` field does not match the recomputed hash
under `hmTest`. -/
def bBadHash : Block :=
  { index := 0, timestamp := 0, transactions := [], previous_hash := zeros64,
    nonce := 0, hash := "deadbeef", merkle_root := "e", difficulty := 0,
    miner := "", reward := 50 }

/-- A persisted chain file carrying the hash-corrupted block. -/
def dataBad : LoadData :=
  { chain := [bBadHash], mempool := [], balances := [], difficulty := 4,
    mining_reward := 50 }

/-- The stored ledger of the C6 scenario: miner `M` owns 50. -/
def balMem : Dict := [("M", 50)]

/-- The admitted pending transaction `T1 = (M to A, 30, fee 1)`. -/
def t1Mem : Transaction :=
  { sender := "M", receiver := "A", amount := 30, fee := 1, timestamp := 100,
    signature := "", tx_id := "id1" }

/-- The candidate transaction `T2 = (M to B, 25, fee 1)`. -/
def t2Mem : Transaction :=
  { sender := "M", receiver := "B", amount := 25, fee := 1, timestamp := 101,
    signature := "", tx_id := "id2" }

/-- An identity-shaped byte hash for evaluating the wallet statements. -/
def whTest : WalletHash := { sha := fun bs => bs }

/-- A concrete unencrypted wallet record. -/
def walletW : WalletData :=
  { name := "w", created := "2024-01-01", version := "2.0",
    master_address := "GSC1aa", master_private_key := "mpk",
    master_public_key := "mpb", balance := 0,
    addresses := [{ address := "GSC1bb", private_key := "apk",
                    public_key := some "apb", label := "Primary Address",
                    balance := 0, created := "2024-01-01" }],
    sending_addresses := [], encrypted := false, salt := none }

/-- A wallet-manager state with `walletW` open. -/
def stWallet : WalletManagerState :=
  { current_wallet := some "w", wallet_data := walletW }

/-- A concrete authenticated cipher for evaluating the C9 statement on
closed inputs: the ciphertext is the key, a separator and the plaintext. -/
def testEnc (k s : String) : String := k ++ "|" ++ s

/-- The matching decryption: succeed exactly when the ciphertext starts
with the presented key and the separator. -/
def testDec (k c : String) : Except Unit String :=
  if (k ++ "|").data.isPrefixOf c.data then
    Except.ok (String.mk (c.data.drop (k.data.length + 1)))
  else Except.error ()

/-- A concrete key derivation for the C9 witness. -/
def testKdf (p s : String) : String := p ++ s

theorem dictGet_dictSet (m : Dict) (k : String) (v : Rat) (a : String) :
    dictGet (dictSet m k v) a = if a = k then v else dictGet m a := by
  induction m with
  | nil => simp [dictSet, dictGet]
  | cons kv rest ih =>
      obtain ⟨k₀, v₀⟩ := kv
      simp only [dictSet]
      by_cases h : k = k₀
      · subst h
        by_cases ha : a = k <;> simp [dictGet, ha]
      · rw [if_neg h]
        by_cases ha : a = k₀
        · subst ha
          have hak : a ≠ k := fun hh => h hh.symm
          simp [dictGet, hak]
        · simp [dictGet, ha, ih]

theorem dictGet_set_add (m : Dict) (k : String) (δ : Rat) (a : String) :
    dictGet (dictSet m k (dictGet m k + δ)) a
      = dictGet m a + if a = k then δ else 0 := by
  rw [dictGet_dictSet]
  by_cases ha : a = k <;> simp [ha]

theorem dictGet_applyTxBal (miner : String) (m : Dict) (tx : Transaction)
    (a : String) :
    dictGet (applyTxBal miner m tx) a = dictGet m a + txBalEffect miner tx a := by
  by_cases hC : tx.sender = "COINBASE" <;>
    by_cases hG : tx.sender = "GENESIS" <;>
      by_cases hM : miner = "" <;>
        by_cases ha1 : a = tx.sender <;>
          by_cases ha2 : a = tx.receiver <;>
            by_cases ha3 : a = miner <;>
              simp_all [applyTxBal, txBalEffect, dictGet_dictSet] <;>
                ring

theorem foldl_add_map {α : Type} (f : α → Rat) :
    ∀ (l : List α) (i : Rat),
      l.foldl (fun acc x => acc + f x) i = i + (l.map f).sum := by
  intro l
  induction l with
  | nil => intro i; simp
  | cons x xs ih => intro i; simp [ih]; ring

theorem dictGet_foldl_txs (miner : String) (a : String) :
    ∀ (txs : List Transaction) (m : Dict),
      dictGet (txs.foldl (applyTxBal miner) m) a
        = dictGet m a + (txs.map (fun tx => txBalEffect miner tx a)).sum := by
  intro txs
  induction txs with
  | nil => intro m; simp
  | cons t ts ih => intro m; simp [ih, dictGet_applyTxBal]; ring

theorem dictGet_update_balances (chain : List Block) (a : String) :
    dictGet (update_balances chain) a
      = (chain.map (fun b =>
          (b.transactions.map (fun tx => txBalEffect b.miner tx a)).sum)).sum := by
  have aux : ∀ (l : List Block) (m : Dict),
      dictGet (l.foldl (fun m b => b.transactions.foldl (applyTxBal b.miner) m) m) a
        = dictGet m a + (l.map (fun b =>
            (b.transactions.map (fun tx => txBalEffect b.miner tx a)).sum)).sum := by
    intro l
    induction l with
    | nil => intro m; simp
    | cons b bs ih => intro m; simp [ih, dictGet_foldl_txs]; ring
  simpa [dictGet] using aux chain []

theorem get_balance_at_block_tip (chain : List Block) (a : String) :
    get_balance_at_block chain a ((chain.length : Int) - 1)
      = (chain.map (fun b =>
          (b.transactions.map (txReplayEffect a b.miner)).sum)).sum := by
  have hn : (min ((chain.length : Int) - 1 + 1) (chain.length : Int)).toNat
      = chain.length := by
    simp
  have aux : ∀ (l : List Block) (i : Rat),
      l.foldl (fun bal b => b.transactions.foldl
        (fun bal₂ tx => bal₂ + txReplayEffect a b.miner tx) bal) i
        = i + (l.map (fun b =>
            (b.transactions.map (txReplayEffect a b.miner)).sum)).sum := by
    intro l
    induction l with
    | nil => intro i; simp
    | cons b bs ih => intro i; simp [ih, foldl_add_map]; ring
  simp only [get_balance_at_block, hn, List.take_length]
  simpa using aux chain 0

theorem txBalEffect_eq_txReplayEffect (miner : String) (tx : Transaction)
    (a : String) (hm : miner ≠ "") (hG : tx.sender ≠ "GENESIS")
    (hf : tx.sender = "Genesis" → tx.fee = 0) (ha : a ≠ "Genesis") :
    txBalEffect miner tx a = txReplayEffect a miner tx := by
  unfold txBalEffect txReplayEffect
  by_cases hC : tx.sender = "COINBASE" <;>
    by_cases hGen : tx.sender = "Genesis" <;>
      by_cases ha1 : a = tx.sender <;>
        by_cases ha2 : tx.receiver = a <;>
          by_cases ha3 : miner = a <;>
            simp_all [eq_comm] <;> ring

theorem specTxEffect_eq_txReplayEffect (miner : String) (tx : Transaction)
    (a : String) (hf : tx.sender = "Genesis" → tx.fee = 0) :
    specTxEffect a miner tx = txReplayEffect a miner tx := by
  unfold specTxEffect txReplayEffect
  by_cases hC : tx.sender = "COINBASE" <;>
    by_cases hGen : tx.sender = "Genesis" <;>
      by_cases ha3 : miner = a <;>
        simp_all [eq_comm] <;> ring

/-- Claim C3, amended.  The stored ledger that `update_balances` rebuilds
after every mutating operation agrees with the chain replay
`get_balance_at_block` at the tip and with the replay rule as the
specification words it, for every address other than the sentinel
`"Genesis"`, on chains whose blocks carry a nonempty miner, no transaction
sent by the all-caps string `"GENESIS"`, and only zero-fee transactions
sent by `"Genesis"` (the real chain satisfies all three).  The claim fails
at the address `"Genesis"` itself because `update_balances` excludes the
all-caps `"GENESIS"` instead of `"Genesis"` from the sender debit, so the
stored ledger debits `"Genesis"` while the replay rule never does. -/
theorem balances_agree_with_replay (chain : List Block) (a : String)
    (ha : a ≠ "Genesis")
    (hminer : ∀ b ∈ chain, b.miner ≠ "")
    (hG : ∀ b ∈ chain, ∀ tx ∈ b.transactions, tx.sender ≠ "GENESIS")
    (hf : ∀ b ∈ chain, ∀ tx ∈ b.transactions, tx.sender = "Genesis" → tx.fee = 0) :
    get_balance (update_balances chain) a
        = get_balance_at_block chain a ((chain.length : Int) - 1)
      ∧ get_balance (update_balances chain) a = specReplay chain a := by
  have hmain : get_balance (update_balances chain) a
      = (chain.map (fun b =>
          (b.transactions.map (txReplayEffect a b.miner)).sum)).sum := by
    rw [get_balance, dictGet_update_balances]
    apply congrArg List.sum
    apply List.map_congr_left
    intro b hb
    apply congrArg List.sum
    apply List.map_congr_left
    intro tx htx
    exact txBalEffect_eq_txReplayEffect b.miner tx a (hminer b hb)
      (hG b hb tx htx) (hf b hb tx htx) ha
  refine ⟨?_, ?_⟩
  · rw [hmain, get_balance_at_block_tip]
  · rw [hmain, specReplay]
    apply congrArg List.sum
    apply List.map_congr_left
    intro b hb
    apply congrArg List.sum
    apply List.map_congr_left
    intro tx htx
    exact (specTxEffect_eq_txReplayEffect b.miner tx a (hf b hb tx htx)).symm

/-- Witness for C3: on the genesis-only chain and the fresh address
`"Miner9"`, the stored ledger, the tip replay and the specification replay
coincide. -/
theorem balances_agree_with_replay_witness :
    get_balance (update_balances [gTest]) "Miner9"
        = get_balance_at_block [gTest] "Miner9"
            ((([gTest] : List Block).length : Int) - 1)
      ∧ get_balance (update_balances [gTest]) "Miner9"
        = specReplay [gTest] "Miner9" :=
  balances_agree_with_replay [gTest] "Miner9" (by decide)
    (by intro b hb; fin_cases hb; decide)
    (by intro b hb; fin_cases hb; intro tx htx; fin_cases htx <;> decide)
    (by intro b hb; fin_cases hb; intro tx htx; fin_cases htx <;>
      simp [cbTest, gtxTest])

/-- Counterexample for C3 as stated: at the sentinel address `"Genesis"`
on the freshly constructed genesis-only chain, the stored ledger reads
-21750000000000 while the tip replay and the specification replay both
read 0. -/
theorem balances_disagree_at_Genesis :
    get_balance (update_balances [gTest]) "Genesis" = -21750000000000
    ∧ get_balance_at_block [gTest] "Genesis"
        ((([gTest] : List Block).length : Int) - 1) = 0
    ∧ specReplay [gTest] "Genesis" = 0
    ∧ get_balance (update_balances [gTest]) "Genesis"
        ≠ get_balance_at_block [gTest] "Genesis"
            ((([gTest] : List Block).length : Int) - 1) := by
  have h1 : ("Genesis" : String) ≠ "GSC_FOUNDATION" := by decide
  have h2 : ("GSC_FOUNDATION" : String) ≠ "Genesis" := by decide
  have h3 : ("GSC_FOUNDATION_RESERVE" : String) ≠ "Genesis" := by decide
  refine ⟨?_, ?_, ?_, ?_⟩ <;>
    norm_num [get_balance, update_balances, applyTxBal, dictGet, dictSet,
      get_balance_at_block, txReplayEffect, specReplay, specTxEffect,
      gTest, cbTest, gtxTest, h1, h2, h3]

theorem mineLoop_some (hm : HashModel) :
    ∀ (fuel : Nat) (b b' : Block) (target : Nat),
      mineLoop hm fuel b target = some b' →
      b'.transactions = b.transactions ∧ b'.miner = b.miner
      ∧ b'.index = b.index ∧ b'.timestamp = b.timestamp
      ∧ b'.reward = b.reward ∧ b'.difficulty = b.difficulty
      ∧ b'.previous_hash = b.previous_hash := by
  intro fuel
  induction fuel with
  | zero => intro b b' t h; simp [mineLoop] at h
  | succ f ih =>
      intro b b' t h
      by_cases hs : startsWithZeros b.hash t = true
      · rw [mineLoop, if_pos hs] at h
        cases h
        exact ⟨rfl, rfl, rfl, rfl, rfl, rfl, rfl⟩
      · rw [mineLoop, if_neg hs] at h
        simpa using ih _ b' t h

/-- Claim C1, amended.  `create_genesis_block` mines a genesis block that
holds TWO transactions: the coinbase reward of 50 that `mine_block`
inserts for the miner address `GSC_FOUNDATION`, timestamped with the wall
clock `now`, followed by the Genesis transfer of the whole 21750000000000
supply to `GSC_FOUNDATION_RESERVE`; the resulting genesis-only ledger
holds 21750000000000 for `GSC_FOUNDATION_RESERVE` (as claimed), but also
50 for `GSC_FOUNDATION` and -21750000000000 for `Genesis` (which
`update_balances` debits, its exclusion list naming `"GENESIS"` instead),
and 0 for every other address.  Determinism fails only through the
coinbase timestamp `now`. -/
theorem genesis_block_contents_and_balances (hm : HashModel) (fuel : Nat)
    (now : Rat) (g : Block) (a : String)
    (hg : create_genesis_block hm fuel now = some g)
    (h1 : a ≠ "GSC_FOUNDATION") (h2 : a ≠ "Genesis")
    (h3 : a ≠ "GSC_FOUNDATION_RESERVE") :
    g.transactions = [mkTransaction hm "COINBASE" "GSC_FOUNDATION" 50 0 now,
      mkTransaction hm "Genesis" "GSC_FOUNDATION_RESERVE" 21750000000000 0 1704067200]
    ∧ g.miner = "GSC_FOUNDATION"
    ∧ get_balance (update_balances [g]) "GSC_FOUNDATION_RESERVE" = 21750000000000
    ∧ get_balance (update_balances [g]) "GSC_FOUNDATION" = 50
    ∧ get_balance (update_balances [g]) "Genesis" = -21750000000000
    ∧ get_balance (update_balances [g]) a = 0 := by
  unfold create_genesis_block Block.mine_block at hg
  have hpres := mineLoop_some hm fuel _ g 1 hg
  obtain ⟨htxs, hminer, -, -, -, -, -⟩ := hpres
  simp only [mkBlock] at htxs hminer
  have hC1 : ("COINBASE" : String) ≠ "GENESIS" := by decide
  have hC2 : ("Genesis" : String) ≠ "COINBASE" := by decide
  have hC3 : ("Genesis" : String) ≠ "GENESIS" := by decide
  have hC4 : ("GSC_FOUNDATION" : String) ≠ "" := by decide
  have hC5 : ("GSC_FOUNDATION" : String) ≠ "COINBASE" := by decide
  have hC6 : ("GSC_FOUNDATION_RESERVE" : String) ≠ "GSC_FOUNDATION" := by decide
  have hC7 : ("GSC_FOUNDATION_RESERVE" : String) ≠ "Genesis" := by decide
  have hC8 : ("Genesis" : String) ≠ "GSC_FOUNDATION" := by decide
  have hC9 : ("GSC_FOUNDATION" : String) ≠ "Genesis" := by decide
  refine ⟨htxs, hminer, ?_, ?_, ?_, ?_⟩ <;>
    norm_num [get_balance, update_balances, htxs, hminer, applyTxBal,
      mkTransaction, dictGet, dictSet, hC1, hC2, hC3, hC4, hC5, hC6, hC7,
      hC8, hC9, h1, h2, h3]

/-- Witness for C1: under the test hash model with the clock at 0, the
mined genesis block is `gTest` and the stated transaction list, miner and
ledger values all hold, with the fresh address `"Alice"` owning 0. -/
theorem genesis_block_contents_and_balances_witness :
    gTest.transactions = [mkTransaction hmTest "COINBASE" "GSC_FOUNDATION" 50 0 0,
      mkTransaction hmTest "Genesis" "GSC_FOUNDATION_RESERVE" 21750000000000 0 1704067200]
    ∧ gTest.miner = "GSC_FOUNDATION"
    ∧ get_balance (update_balances [gTest]) "GSC_FOUNDATION_RESERVE" = 21750000000000
    ∧ get_balance (update_balances [gTest]) "GSC_FOUNDATION" = 50
    ∧ get_balance (update_balances [gTest]) "Genesis" = -21750000000000
    ∧ get_balance (update_balances [gTest]) "Alice" = 0 :=
  genesis_block_contents_and_balances hmTest 1 0 gTest "Alice" rfl
    (by decide) (by decide) (by decide)

/-- Counterexample for C1 as stated: the genesis-only ledger gives
`GSC_FOUNDATION` the nonzero balance 50, the genesis block holds two
transactions rather than exactly one, and two constructions with
different clock readings yield different genesis blocks. -/
theorem genesis_claim_fails :
    get_balance (update_balances [gTest]) "GSC_FOUNDATION" ≠ 0
    ∧ gTest.transactions.length ≠ 1
    ∧ create_genesis_block hmTest 1 0 ≠ create_genesis_block hmTest 1 1 := by
  have hC1 : ("COINBASE" : String) ≠ "GENESIS" := by decide
  have hC8 : ("Genesis" : String) ≠ "GSC_FOUNDATION" := by decide
  refine ⟨?_, ?_, ?_⟩
  · norm_num [get_balance, update_balances, applyTxBal, dictGet, dictSet,
      gTest, cbTest, gtxTest, hC1, hC8]
  · simp [gTest]
  · rw [show create_genesis_block hmTest 1 0 = some gTest from rfl,
        show create_genesis_block hmTest 1 1
          = some { gTest with
              transactions := [{ cbTest with timestamp := 1 }, gtxTest] } from rfl]
    simp [gTest, cbTest, gtxTest]

/-- Claim C2, amended.  `add_block(b)` checks only `Block.is_valid`
against the tip: stored hash equal to the recomputed hash, previous-hash
link, stored Merkle root equal to the recomputed root, proof of work at
the `difficulty` field of the block itself, and intrinsic validity of every
transaction.  It does NOT check the height sequence, the timestamp order,
the presence or amount of a coinbase transaction, or sender funding;
on rejection the state is unchanged, on success the block is appended and
the ledger rebuilt. -/
theorem add_block_checks_only_is_valid (hm : HashModel) (st : ChainState)
    (b previous : Block) (hlast : st.chain.getLast? = some previous) :
    (add_block hm st b).1 = b.is_valid hm (some previous)
    ∧ (add_block hm st b).2
        = if b.is_valid hm (some previous) then
            { st with chain := st.chain ++ [b],
                      balances := update_balances (st.chain ++ [b]) }
          else st := by
  unfold add_block
  rw [hlast]
  by_cases hv : b.is_valid hm (some previous) = true
  · simp [hv]
  · have hv' : b.is_valid hm (some previous) = false := by simpa using hv
    simp [hv']

/-- Witness for C2: on the genesis-only state, the result of `add_block`
for the contextually ill-formed block `bBad` is exactly what
`Block.is_valid` alone dictates. -/
theorem add_block_checks_only_is_valid_witness :
    (add_block hmTest stTest bBad).1 = bBad.is_valid hmTest (some gTest)
    ∧ (add_block hmTest stTest bBad).2
        = if bBad.is_valid hmTest (some gTest) then
            { stTest with chain := stTest.chain ++ [bBad],
                          balances := update_balances (stTest.chain ++ [bBad]) }
          else stTest :=
  add_block_checks_only_is_valid hmTest stTest bBad gTest rfl

/-- Counterexample for C2 as stated: `bBad` has the wrong height (99
instead of 1), a timestamp not above that of the tip, and no coinbase
transaction at all, yet `add_block` accepts it and the chain grows. -/
theorem add_block_accepts_contextually_invalid_block :
    (add_block hmTest stTest bBad).1 = true
    ∧ bBad.index ≠ gTest.index + 1
    ∧ bBad.timestamp ≤ gTest.timestamp
    ∧ bBad.transactions = []
    ∧ (add_block hmTest stTest bBad).2.chain = [gTest, bBad] := by
  refine ⟨rfl, by decide, ?_, rfl, rfl⟩
  show (0 : Rat) ≤ 1704067200
  norm_num [bBad, gTest, mkBlock]

/-- Claim C5, amended.  `replace_chain_if_longer` swaps in the competing
chain exactly when it is strictly longer and passes the network
validation (genesis shape plus per-block `Block.is_valid`), and then
rebuilds the ledger with `update_balances`; the mempool is left exactly
as it was in every case — no pending transaction is re-evaluated or
dropped. -/
theorem replace_chain_spec (hm : HashModel) (st : ChainState)
    (new_chain : List Block) :
    (replace_chain_if_longer hm st new_chain).2.mempool = st.mempool
    ∧ replace_chain_if_longer hm st new_chain
        = if st.chain.length < new_chain.length
             ∧ is_chain_valid_network hm new_chain = true then
            (true, { st with chain := new_chain,
                             balances := update_balances new_chain })
          else (false, st) := by
  unfold replace_chain_if_longer
  by_cases h : st.chain.length < new_chain.length
      ∧ is_chain_valid_network hm new_chain = true
  · simp [h]
  · simp [h]

/-- Counterexample for C5 as stated: the strictly longer valid chain
`[g0Test, b1Test]` replaces the genesis-only chain, but the pending
transaction `tPending` — unfundable against the new ledger, on which its
sender owns 0 < 11 — is still sitting in the mempool afterwards. -/
theorem replace_chain_keeps_stale_mempool :
    (replace_chain_if_longer hmTest stRep [g0Test, b1Test]).1 = true
    ∧ (replace_chain_if_longer hmTest stRep [g0Test, b1Test]).2.mempool
        = [tPending]
    ∧ get_balance
        (replace_chain_if_longer hmTest stRep [g0Test, b1Test]).2.balances
        tPending.sender
        < tPending.amount + tPending.fee := by
  refine ⟨rfl, rfl, ?_⟩
  show get_balance (update_balances [g0Test, b1Test]) "M" < 10 + 1
  norm_num [get_balance, update_balances, g0Test, b1Test, mkBlock, applyTxBal,
    dictGet]

/-- Claim C7.  The reward schedule divides in floating point:
`50.0 / 2 ** halvings`.  After two completed halvings (height 420000) the
reward is 12.5, not the integer right-shift `50 >> 2 = 12` the claim
states; from the 64th halving on it is 0 as claimed. -/
theorem reward_schedule_is_float_division :
    get_current_reward 420000 = 25 / 2
    ∧ get_current_reward 420000 ≠ 12
    ∧ get_current_reward 0 = 50
    ∧ get_current_reward 13440000 = 0 := by
  refine ⟨?_, ?_, ?_, ?_⟩ <;> norm_num [get_current_reward]

/-- Claim C8, amended.  `load_blockchain` performs no validation at all:
a successfully parsed file is installed verbatim — chain, mempool,
balances, difficulty and mining reward — however invalid its chain; only
a missing or unparseable file falls back to `create_genesis_block`, which
appends a freshly mined genesis block and rebuilds the ledger. -/
theorem load_blockchain_installs_verbatim (st : ChainState)
    (data : LoadData) (g : Block) :
    load_blockchain st (some data) g
        = { st with chain := data.chain, mempool := data.mempool,
                    balances := data.balances, difficulty := data.difficulty,
                    mining_reward := data.mining_reward }
    ∧ (load_blockchain st none g).chain = st.chain ++ [g]
    ∧ (load_blockchain st none g).balances = update_balances (st.chain ++ [g]) := by
  exact ⟨rfl, rfl, rfl⟩

/-- Counterexample for C8 as stated: a persisted file whose single block
stores a hash different from its recomputed hash — so the block fails
`Block.is_valid` — is installed as the chain anyway. -/
theorem load_blockchain_installs_invalid_chain :
    (load_blockchain stTest (some dataBad) gTest).chain = [bBadHash]
    ∧ bBadHash.hash ≠ bBadHash.calculate_hash hmTest
    ∧ bBadHash.is_valid hmTest none = false := by
  exact ⟨rfl, by decide, rfl⟩

theorem is_valid_iff (t : Transaction) :
    t.is_valid = true ↔ 0 < t.amount ∧ 0 ≤ t.fee ∧ t.sender ≠ t.receiver := by
  constructor
  · intro h
    unfold Transaction.is_valid at h
    by_cases h1 : t.amount ≤ 0
    · rw [if_pos h1] at h; cases h
    · rw [if_neg h1] at h
      by_cases h2 : t.fee < 0
      · rw [if_pos h2] at h; cases h
      · rw [if_neg h2] at h
        by_cases h3 : t.sender = t.receiver
        · rw [if_pos h3] at h; cases h
        · exact ⟨not_le.mp h1, not_lt.mp h2, h3⟩
  · rintro ⟨ha, hf, hsr⟩
    unfold Transaction.is_valid
    rw [if_neg (not_le.mpr ha), if_neg (not_lt.mpr hf), if_neg hsr]

theorem pendingSum_nonneg (mempool : List Transaction) (s : String)
    (hmem : ∀ tx ∈ mempool, tx.is_valid = true) :
    0 ≤ pendingSum mempool s := by
  unfold pendingSum
  apply List.sum_nonneg
  intro x hx
  simp only [List.mem_map] at hx
  obtain ⟨tx, htx, rfl⟩ := hx
  have hv := (is_valid_iff tx).mp (hmem tx (List.mem_of_mem_filter htx))
  linarith [hv.1, hv.2.1]

theorem add_transaction_snd (balances : Dict) (mempool : List Transaction)
    (t : Transaction) :
    (add_transaction_to_mempool balances mempool t).2
      = if (add_transaction_to_mempool balances mempool t).1 = true
        then mempool ++ [t] else mempool := by
  unfold add_transaction_to_mempool
  split_ifs <;> simp_all

/-- Claim C6.  `add_transaction_to_mempool(t)` admits `t` exactly when `t`
is intrinsically valid, the stored balance of its sender covers the sum of
`amount + fee` over the pending same-sender transactions plus the
candidate, and no pending transaction already carries the same id — on
states whose mempool holds only intrinsically valid transactions, which
admission itself preserves.  On admission `t` is appended; on rejection
the mempool is unchanged. -/
theorem mempool_admission_iff (balances : Dict) (mempool : List Transaction)
    (t : Transaction) (hmem : ∀ tx ∈ mempool, tx.is_valid = true) :
    ((add_transaction_to_mempool balances mempool t).1 = true
      ↔ (t.is_valid = true
         ∧ pendingSum mempool t.sender + (t.amount + t.fee)
             ≤ dictGet balances t.sender
         ∧ ∀ tx ∈ mempool, tx.tx_id ≠ t.tx_id))
    ∧ ((add_transaction_to_mempool balances mempool t).1 = true
        → (add_transaction_to_mempool balances mempool t).2 = mempool ++ [t])
    ∧ ((add_transaction_to_mempool balances mempool t).1 = false
        → (add_transaction_to_mempool balances mempool t).2 = mempool) := by
  refine ⟨?_, ?_, ?_⟩
  · by_cases hA : t.is_valid = true
    · by_cases hB : ∃ x ∈ mempool, x.sender = t.sender ∧ x.tx_id ≠ t.tx_id
      · by_cases hC : dictGet balances t.sender
            < pendingSum mempool t.sender + (t.amount + t.fee)
        · simp only [add_transaction_to_mempool, is_transaction_valid]
          simp [hA, hB, hC]
        · have hD : t.amount + t.fee ≤ dictGet balances t.sender := by
            have hle := not_lt.mp hC
            have hS := pendingSum_nonneg mempool t.sender hmem
            linarith
          simp only [add_transaction_to_mempool, is_transaction_valid]
          simp [hA, hB, hC, hD, not_lt.mp hC]
          by_cases hP : ∀ x ∈ mempool, ¬ x.tx_id = t.tx_id
          · rw [if_pos hP]
            simpa using hP
          · rw [if_neg hP]
            simpa using hP
      · by_cases hP : ∀ x ∈ mempool, ¬ x.tx_id = t.tx_id
        · have hnone : ∀ tx ∈ mempool, ¬ tx.sender = t.sender := by
            intro tx htx hsend
            exact hB ⟨tx, htx, hsend, hP tx htx⟩
          have hS0 : pendingSum mempool t.sender = 0 := by
            have hfil : mempool.filter (fun tx => tx.sender = t.sender) = [] := by
              rw [List.filter_eq_nil_iff]
              intro tx htx
              simpa using hnone tx htx
            simp [pendingSum, hfil]
          by_cases hD : t.amount + t.fee ≤ dictGet balances t.sender
          · simp only [add_transaction_to_mempool, is_transaction_valid]
            simp [hA, hB, hD, hS0]
            rw [if_pos hP]
            simpa using hP
          · simp only [add_transaction_to_mempool, is_transaction_valid]
            simp [hA, hB, hD, hS0]
        · by_cases hD : t.amount + t.fee ≤ dictGet balances t.sender
          · simp only [add_transaction_to_mempool, is_transaction_valid]
            simp [hA, hB, hD, hP]
          · simp only [add_transaction_to_mempool, is_transaction_valid]
            simp [hA, hB, hD, hP]
    · simp only [add_transaction_to_mempool, is_transaction_valid]
      simp [hA]
  · intro h
    rw [add_transaction_snd, if_pos h]
  · intro h
    rw [add_transaction_snd, if_neg (by simp [h])]

/-- Witness for C6, the double-spend scenario: the miner owns 50, the
pending `T1 = (M to A, 30, fee 1)` is in the mempool, and the candidate
`T2 = (M to B, 25, fee 1)` is rejected because `31 + 26 > 50`, leaving the
mempool unchanged. -/
theorem mempool_admission_iff_witness :
    (((add_transaction_to_mempool balMem [t1Mem] t2Mem).1 = true
      ↔ (t2Mem.is_valid = true
         ∧ pendingSum [t1Mem] t2Mem.sender + (t2Mem.amount + t2Mem.fee)
             ≤ dictGet balMem t2Mem.sender
         ∧ ∀ tx ∈ [t1Mem], tx.tx_id ≠ t2Mem.tx_id))
    ∧ ((add_transaction_to_mempool balMem [t1Mem] t2Mem).1 = true
        → (add_transaction_to_mempool balMem [t1Mem] t2Mem).2 = [t1Mem] ++ [t2Mem])
    ∧ ((add_transaction_to_mempool balMem [t1Mem] t2Mem).1 = false
        → (add_transaction_to_mempool balMem [t1Mem] t2Mem).2 = [t1Mem]))
    ∧ (add_transaction_to_mempool balMem [t1Mem] t2Mem).1 = false := by
  have hmem : ∀ tx ∈ [t1Mem], tx.is_valid = true := by
    intro tx htx
    simp only [List.mem_singleton] at htx
    subst htx
    rw [is_valid_iff]
    refine ⟨by norm_num [t1Mem], by norm_num [t1Mem], by decide⟩
  have hmain := mempool_admission_iff balMem [t1Mem] t2Mem hmem
  refine ⟨hmain, ?_⟩
  cases hb : (add_transaction_to_mempool balMem [t1Mem] t2Mem).1
  · rfl
  · exfalso
    have h2 := (hmain.1.mp hb).2.1
    norm_num [pendingSum, dictGet, balMem, t1Mem, t2Mem] at h2

/-- Claim C10.  `validate_balances` returns `True` on every chain and
every stored map — its mismatch loop can repair entries but its return
value is the constant `True`, so chain validation can never fail on a
ledger inconsistency — and it ends by overwriting `self.balances` with the
freshly recomputed dictionary; consequently `is_chain_valid` is not
read-only: whenever it returns `True` the stored map has been replaced by
the recomputation (prior entries discarded), and when it returns `False`
it failed before reaching `validate_balances` and the map is untouched. -/
theorem validate_balances_always_true (hm : HashModel) (st : ChainState)
    (balances : Dict) :
    validate_balances st.chain balances = (true, calculatedBalancesVb st.chain)
    ∧ (is_chain_valid hm st).2
        = if (is_chain_valid hm st).1 = true then calculatedBalancesVb st.chain
          else st.balances := by
  refine ⟨rfl, ?_⟩
  rcases hch : st.chain with - | ⟨g, rest⟩
  · simp [is_chain_valid, hch]
  · simp only [is_chain_valid, hch]
    by_cases h1 : g.index ≠ 0 ∨ g.previous_hash ≠ zeros64
    · simp [h1]
    · by_cases h2 : bitcoinBlocksValid hm (g :: rest) st.difficulty
          st.block_height g rest = true
      · simp [h1, h2, validate_balances]
      · simp [h1, h2]

/-- Claim C4 (the code is wrong here).  Both `generate_new_address` and
`create_paper_wallet` run `address, private_key = self.generate_address()`
although `generate_address` returns a 3-tuple
(address, private key, public key), so on every open wallet both calls
raise `ValueError: too many values to unpack (expected 2)` instead of
returning a new address: no entry is ever appended and no paper wallet is
ever produced. -/
theorem wallet_address_operations_raise (wh : WalletHash)
    (st : WalletManagerState) (privBytes : List Nat)
    (nowIso label output_path w : String)
    (hopen : st.current_wallet = some w) :
    generate_new_address wh st privBytes nowIso label
        = Except.error "ValueError: too many values to unpack (expected 2)"
    ∧ create_paper_wallet wh st privBytes output_path
        = Except.error "ValueError: too many values to unpack (expected 2)" := by
  unfold generate_new_address create_paper_wallet
  rw [hopen]
  exact ⟨rfl, rfl⟩

/-- Witness for C4: with the wallet `walletW` open, both operations raise
the unpacking `ValueError`. -/
theorem wallet_address_operations_raise_witness :
    generate_new_address whTest stWallet [1, 2, 3] "2024-05-05" "savings"
        = Except.error "ValueError: too many values to unpack (expected 2)"
    ∧ create_paper_wallet whTest stWallet [1, 2, 3] "paper.png"
        = Except.error "ValueError: too many values to unpack (expected 2)" :=
  wallet_address_operations_raise whTest stWallet [1, 2, 3] "2024-05-05"
    "savings" "paper.png" "w" rfl

theorem decryptEntries_ok (dec : String → String → Except Unit String)
    (key : String) (enc : String → String) :
    ∀ (addrs : List AddressEntry),
      (∀ a ∈ addrs, dec key (enc a.private_key) = Except.ok a.private_key) →
      decryptEntries dec key
          (addrs.map (fun a => { a with private_key := enc a.private_key }))
        = Except.ok addrs := by
  intro addrs
  induction addrs with
  | nil => intro h; rfl
  | cons a rest ih =>
      intro h
      have h1 := h a (List.mem_cons_self a rest)
      have h2 := ih (fun x hx => h x (List.mem_cons_of_mem a hx))
      simp only [List.map_cons, decryptEntries, h1, h2]

/-- Claim C9.  With the Fernet cipher abstracted as an authenticated
symmetric cipher (`hok`: decryption under the right derived key inverts
encryption on the wallet private-key fields; `hbad`: decryption under the
key derived from a different passphrase fails), encrypting a wallet and
decrypting with the same passphrase restores every private-key field
bit-exactly (master and per-address), decrypting with the other
passphrase raises, the fresh salt is stored alongside the ciphertexts,
and the key derivation is PBKDF2-HMAC-SHA256 with 100000 ≥ 100000
iterations. -/
theorem wallet_encrypt_roundtrip
    (enc : String → String → String)
    (dec : String → String → Except Unit String)
    (kdf : String → String → String) (w : WalletData) (p p' salt : String)
    (hok : ∀ s ∈ privateFields w,
        dec (kdf p salt) (enc (kdf p salt) s) = Except.ok s)
    (hbad : ∀ s ∈ privateFields w,
        dec (kdf p' salt) (enc (kdf p salt) s) = Except.error ()) :
    decrypt_wallet_data dec kdf (encrypt_wallet_data enc kdf w p salt) p
        = Except.ok { w with salt := some salt, encrypted := false }
    ∧ decrypt_wallet_data dec kdf (encrypt_wallet_data enc kdf w p salt) p'
        = Except.error ()
    ∧ (encrypt_wallet_data enc kdf w p salt).salt = some salt
    ∧ (encrypt_wallet_data enc kdf w p salt).encrypted = true
    ∧ 100000 ≤ pbkdf2Iterations := by
  have hmaster : w.master_private_key ∈ privateFields w :=
    List.mem_cons_self _ _
  have haddr : ∀ a ∈ w.addresses, a.private_key ∈ privateFields w := by
    intro a ha
    exact List.mem_cons_of_mem _ (List.mem_map_of_mem AddressEntry.private_key ha)
  refine ⟨?_, ?_, rfl, rfl, le_refl _⟩
  · have hA := decryptEntries_ok dec (kdf p salt) (enc (kdf p salt))
      w.addresses (fun a ha => hok a.private_key (haddr a ha))
    simp only [decrypt_wallet_data, encrypt_wallet_data, hA,
      hok w.master_private_key hmaster]
  · rcases hadd : w.addresses with - | ⟨a, rest⟩
    · simp only [decrypt_wallet_data, encrypt_wallet_data, hadd, List.map_nil,
        decryptEntries, hbad w.master_private_key hmaster]
    · have hfail := hbad a.private_key (haddr a (by rw [hadd]; exact List.mem_cons_self a rest))
      simp only [decrypt_wallet_data, encrypt_wallet_data, hadd, List.map_cons,
        decryptEntries, hfail]

/-- Witness for C9: the concrete wallet `walletW`, passphrases `"pw"` and
`"qq"`, salt `"NaCl"`, and the concrete authenticated cipher
`testEnc`/`testDec` keyed by `testKdf`. -/
theorem wallet_encrypt_roundtrip_witness :
    decrypt_wallet_data testDec testKdf
        (encrypt_wallet_data testEnc testKdf walletW "pw" "NaCl") "pw"
        = Except.ok { walletW with salt := some "NaCl", encrypted := false }
    ∧ decrypt_wallet_data testDec testKdf
        (encrypt_wallet_data testEnc testKdf walletW "pw" "NaCl") "qq"
        = Except.error ()
    ∧ (encrypt_wallet_data testEnc testKdf walletW "pw" "NaCl").salt
        = some "NaCl"
    ∧ (encrypt_wallet_data testEnc testKdf walletW "pw" "NaCl").encrypted
        = true
    ∧ 100000 ≤ pbkdf2Iterations :=
  wallet_encrypt_roundtrip testEnc testDec testKdf walletW "pw" "qq" "NaCl"
    (by
      intro s hs
      simp only [privateFields, walletW, List.map_cons, List.map_nil,
        List.mem_cons, List.mem_singleton] at hs
      rcases hs with rfl | rfl | hs
      · rfl
      · rfl
      · cases hs)
    (by
      intro s hs
      simp only [privateFields, walletW, List.map_cons, List.map_nil,
        List.mem_cons, List.mem_singleton] at hs
      rcases hs with rfl | rfl | hs
      · rfl
      · rfl
      · cases hs)
